import Mathlib

/-!
# Verification of the MathH dense-matrix library

Shallow embedding of `include/MathH/MathH.h`: the generic container
`MathH::Matrix<T>` (a flat row-major buffer of `rows_ * cols_` elements)
and `MathH::MathHClass<T>::multiply`, the triple-loop matrix product with
a `double` accumulator.

Modelling conventions:
* `std::vector<T>` becomes `List T`; `size_t` becomes `Nat`.
* The unchecked buffer read `data_[r * cols_ + c]` becomes an `Option`
  read (`List.getElem?`): `none` models running off the end of the
  buffer, which in C++ is undefined behaviour.  The unchecked write
  becomes `List.set`, which in C++ terms writes the addressed cell when
  the linear index is inside the buffer.
* The C++ `double` is modelled by `ℚ` (exact arithmetic); the element
  type `T` keeps the conversions `toD : T → ℚ` and `ofD : ℚ → T` that
  stand for the implicit numeric conversions `T → double` and
  `double → T` performed by `sum += A(i,k) * B(k,j)` and `C(i,j) = sum`.
* The two `throw std::runtime_error` sites become `Except.error` values
  of the spec error taxonomy `MatrixError`.
-/

namespace MathH

/-- The error taxonomy of the specification.  The source has exactly two
throw sites: the inconsistent-row-length check of the initializer-list
constructor and the dimension check of `multiply`.  The other two labels
exist in the spec taxonomy but are produced nowhere in the source. -/
inductive MatrixError where
  | InvalidDimension
  | InconsistentShape
  | DimensionMismatch
  | IndexOutOfRange
deriving DecidableEq

/-- Embedding of `MathH::Matrix<T>`: fields `rows_`, `cols_` and the
contiguous buffer `data_` of intended size `rows_ * cols_`, addressed in
row-major order. -/
structure Matrix (T : Type) where
  rows_ : Nat
  cols_ : Nat
  data_ : List T
deriving DecidableEq

/-- Decidable equality of embedded call results, used to evaluate the
embedding on concrete inputs. -/
instance {E A : Type} [DecidableEq E] [DecidableEq A] : DecidableEq (Except E A) :=
  fun x y =>
    match x, y with
    | Except.error e1, Except.error e2 =>
        if h : e1 = e2 then isTrue (by rw [h]) else isFalse (by simp [h])
    | Except.error _, Except.ok _ => isFalse (by simp)
    | Except.ok _, Except.error _ => isFalse (by simp)
    | Except.ok a1, Except.ok a2 =>
        if h : a1 = a2 then isTrue (by rw [h]) else isFalse (by simp [h])

namespace Matrix

variable {T : Type}

/-- Embedding of the accessor `size_t rows() const { return rows_; }`. -/
def rows (M : Matrix T) : Nat := M.rows_

/-- Embedding of the accessor `size_t cols() const { return cols_; }`. -/
def cols (M : Matrix T) : Nat := M.cols_

/-- Embedding of the dimension constructor
`Matrix(const size_t rows, const size_t cols)
  : rows_(rows), cols_(cols), data_(rows * cols, 0.0) {}`;
the buffer holds `rows * cols` copies of zero.  There is no check on
`rows` or `cols`. -/
def construct [Zero T] (rows cols : Nat) : Matrix T :=
  ⟨rows, cols, List.replicate (rows * cols) 0⟩

/-- Embedding of the const accessor
`T operator()(const size_t r, const size_t c) const { return data_[r * cols_ + c]; }`.
The linear index is formed without any bounds check; `none` models the
access running off the buffer. -/
def get (M : Matrix T) (r c : Nat) : Option T :=
  M.data_[r * M.cols_ + c]?

/-- The read `data_[r * cols_ + c]` as a total value (the value the
unchecked C++ read yields whenever the linear index is inside the
buffer); used to state element formulas. -/
def el [Zero T] (M : Matrix T) (r c : Nat) : T :=
  (M.get r c).getD 0

/-- Embedding of an assignment through the non-const accessor
`T &operator()(const size_t r, const size_t c) { return data_[r * cols_ + c]; }`:
writing `v` through the returned reference.  Again no bounds check is
performed on `r` or `c`. -/
def set (M : Matrix T) (r c : Nat) (v : T) : Matrix T :=
  ⟨M.rows_, M.cols_, M.data_.set (r * M.cols_ + c) v⟩

/-- Embedding of the loop body
`for (auto &val : row) data_[i++] = val;` of the initializer-list
constructor: write the elements of `row` at consecutive linear
positions starting at `i`. -/
def writeRow (data : List T) : Nat → List T → List T
  | _, [] => data
  | i, v :: vs => writeRow (data.set i v) (i + 1) vs

/-- Embedding of the row loop of the initializer-list constructor:
each row is checked against `cols_` (`throw` on mismatch) and then
copied at consecutive positions. -/
def fillRows (cols : Nat) : List T → Nat → List (List T) → Except MatrixError (List T)
  | data, _, [] => Except.ok data
  | data, i, row :: rest =>
      if row.length ≠ cols then Except.error MatrixError.InconsistentShape
      else fillRows cols (writeRow data i row) (i + row.length) rest

/-- Embedding of the initializer-list constructor
`Matrix(std::initializer_list<std::initializer_list<T>> values)`:
`rows_ = values.size()`, `cols_ = values.begin()->size()` (first row
length; the dereference of `begin()` on an empty outer list is undefined
behaviour in the source, modelled by `headD []`), `data_.resize(rows_ *
cols_)` zero-fills the buffer, then the row loop copies and checks. -/
def ofLists [Zero T] (values : List (List T)) : Except MatrixError (Matrix T) :=
  let rows := values.length
  let cols := (values.headD []).length
  match fillRows cols (List.replicate (rows * cols) 0) 0 values with
  | Except.error e => Except.error e
  | Except.ok data => Except.ok ⟨rows, cols, data⟩

/-- The representation invariant of the spec data model: the buffer
length equals `rows * cols`. -/
def WF (M : Matrix T) : Prop := M.data_.length = M.rows * M.cols

instance (M : Matrix T) : Decidable M.WF := by
  unfold WF; infer_instance

end Matrix

/-- Embedding of the inner accumulation loop of `multiply`:
`double sum = 0.0; for (size_t k = 0; k < A.cols(); ++k) sum += A(i,k) * B(k,j);`.
The product is computed in `T` and converted to the accumulator type
(`double`, modelled by `ℚ`) by `toD` before being added. -/
def dot [Zero T] [Add T] [Mul T] (toD : T → ℚ) (A B : Matrix T) (i j : Nat) : ℚ :=
  (List.range A.cols).foldl (fun sum k => sum + toD (A.el i k * B.el k j)) 0

/-- One iteration row of the write loops of `multiply`: for `j` from `0`
to `n - 1`, execute `C(i, j) = f i j`. -/
def setRow (f : Nat → Nat → T) (i n : Nat) (C : Matrix T) : Matrix T :=
  (List.range n).foldl (fun C j => C.set i j (f i j)) C

/-- The double write loop of `multiply`: for `i` from `0` to `m - 1` and
`j` from `0` to `n - 1`, execute `C(i, j) = f i j`. -/
def setAll (f : Nat → Nat → T) (m n : Nat) (C : Matrix T) : Matrix T :=
  (List.range m).foldl (fun C i => setRow f i n C) C

/-- Embedding of `MathHClass<T>::multiply(Matrix<T> &A, Matrix<T> &B)`:
throw `DimensionMismatch` when `A.cols() != B.rows()`; otherwise build
`Matrix<T> C(A.rows(), B.cols())` and run the triple i-j-k loop, each
body computing the `double` accumulation `dot` and assigning
`C(i, j) = sum` (the `double → T` narrowing `ofD`). -/
def multiply [Zero T] [Add T] [Mul T] (toD : T → ℚ) (ofD : ℚ → T) (A B : Matrix T) :
    Except MatrixError (Matrix T) :=
  if A.cols ≠ B.rows then
    Except.error MatrixError.DimensionMismatch
  else
    Except.ok (setAll (fun i j => ofD (dot toD A B i j)) A.rows B.cols
      (Matrix.construct A.rows B.cols))

/-- The operation `multiply` instantiated at the element type the source
is written for, `T = double` (modelled by `ℚ`), where the conversions
between `T` and the accumulator type are the identity. -/
def multiplyQ (A B : Matrix ℚ) : Except MatrixError (Matrix ℚ) :=
  multiply id id A B

/-! ## Basic facts about the embedded operations -/

namespace Matrix

variable {T : Type}

theorem set_rows (M : Matrix T) (r c : Nat) (v : T) : (M.set r c v).rows = M.rows := rfl

theorem set_cols (M : Matrix T) (r c : Nat) (v : T) : (M.set r c v).cols = M.cols := rfl

theorem set_length (M : Matrix T) (r c : Nat) (v : T) :
    (M.set r c v).data_.length = M.data_.length := by
  simp [Matrix.set]

theorem construct_rows [Zero T] (rows cols : Nat) :
    (construct (T := T) rows cols).rows = rows := rfl

theorem construct_cols [Zero T] (rows cols : Nat) :
    (construct (T := T) rows cols).cols = cols := rfl

theorem construct_length [Zero T] (rows cols : Nat) :
    (construct (T := T) rows cols).data_.length = rows * cols := by
  simp [construct]

/-- Row-major index bound: in-bounds `(r, c)` gives an in-buffer linear
index. -/
theorem index_lt {nr nc r c : Nat} (hr : r < nr) (hc : c < nc) :
    r * nc + c < nr * nc := by
  have hstep : (r + 1) * nc ≤ nr * nc := Nat.mul_le_mul_right nc hr
  have hexp : (r + 1) * nc = r * nc + nc := by ring
  omega

/-- Row-major indexing is injective on in-bounds column indices. -/
theorem index_inj {c i j i' j' : Nat} (hj : j < c) (hj' : j' < c)
    (h : i * c + j = i' * c + j') : i = i' ∧ j = j' := by
  have hc : 0 < c := Nat.lt_of_le_of_lt (Nat.zero_le j) hj
  have hmod : j = j' := by
    have h1 := congrArg (· % c) h
    simpa [Nat.mul_add_mod, Nat.add_mul_mod_self_left, Nat.mod_eq_of_lt hj,
      Nat.mod_eq_of_lt hj', Nat.add_comm] using h1
  refine ⟨?_, hmod⟩
  subst hmod
  have := Nat.add_right_cancel h
  exact Nat.eq_of_mul_eq_mul_right hc this

end Matrix


theorem setRow_succ (f : Nat → Nat → T) (i n : Nat) (C : Matrix T) :
    setRow f i (n + 1) C = (setRow f i n C).set i n (f i n) := by
  rw [setRow, List.range_succ, List.foldl_append]
  rfl

theorem setRow_rows (f : Nat → Nat → T) (i n : Nat) (C : Matrix T) :
    (setRow f i n C).rows_ = C.rows_ := by
  induction n with
  | zero => rfl
  | succ n ih => rw [setRow_succ]; exact ih

theorem setRow_cols (f : Nat → Nat → T) (i n : Nat) (C : Matrix T) :
    (setRow f i n C).cols_ = C.cols_ := by
  induction n with
  | zero => rfl
  | succ n ih => rw [setRow_succ]; exact ih

theorem setRow_length (f : Nat → Nat → T) (i n : Nat) (C : Matrix T) :
    (setRow f i n C).data_.length = C.data_.length := by
  induction n with
  | zero => rfl
  | succ n ih => rw [setRow_succ]; simpa [Matrix.set] using ih

/-- A position not written by the row write loop keeps its previous
content. -/
theorem setRow_miss (f : Nat → Nat → T) (i n : Nat) (C : Matrix T) (p : Nat)
    (hp : ∀ j, j < n → p ≠ i * C.cols_ + j) :
    (setRow f i n C).data_[p]? = C.data_[p]? := by
  induction n with
  | zero => rfl
  | succ n ih =>
      rw [setRow_succ]
      have hcols := setRow_cols f i n C
      have hne : i * (setRow f i n C).cols_ + n ≠ p := by
        rw [hcols]
        exact fun h => hp n (Nat.lt_succ_self n) h.symm
      have hstep : ((setRow f i n C).set i n (f i n)).data_[p]? =
          (setRow f i n C).data_[p]? := by
        simp only [Matrix.set]
        exact List.getElem?_set_ne hne
      rw [hstep]
      exact ih fun j hj => hp j (Nat.lt_succ_of_lt hj)

/-- A position written by the row write loop holds the written value. -/
theorem setRow_hit (f : Nat → Nat → T) (i n : Nat) (C : Matrix T) (j : Nat)
    (hj : j < n) (hlen : i * C.cols_ + j < C.data_.length) :
    (setRow f i n C).data_[i * C.cols_ + j]? = some (f i j) := by
  induction n with
  | zero => exact absurd hj (Nat.not_lt_zero j)
  | succ n ih =>
      rw [setRow_succ]
      have hcols := setRow_cols f i n C
      rcases Nat.lt_or_ge j n with hlt | hge
      · have hne : i * (setRow f i n C).cols_ + n ≠ i * C.cols_ + j := by
          rw [hcols]; omega
        have hstep : ((setRow f i n C).set i n (f i n)).data_[i * C.cols_ + j]? =
            (setRow f i n C).data_[i * C.cols_ + j]? := by
          simp only [Matrix.set]
          exact List.getElem?_set_ne hne
        rw [hstep]
        exact ih hlt
      · have hj' : j = n := Nat.le_antisymm (Nat.lt_succ_iff.mp hj) hge
        have hlen2 : i * (setRow f i n C).cols_ + n < (setRow f i n C).data_.length := by
          rw [hcols, setRow_length, ← hj']
          exact hlen
        have hstep : ((setRow f i n C).set i n (f i n)).data_[i * C.cols_ + j]? =
            some (f i n) := by
          simp only [Matrix.set]
          rw [hj', ← hcols]
          exact List.getElem?_set_self hlen2
        rw [hstep, hj']

theorem setAll_succ (f : Nat → Nat → T) (m n : Nat) (C : Matrix T) :
    setAll f (m + 1) n C = setRow f m n (setAll f m n C) := by
  rw [setAll, List.range_succ, List.foldl_append]
  rfl

theorem setAll_rows (f : Nat → Nat → T) (m n : Nat) (C : Matrix T) :
    (setAll f m n C).rows_ = C.rows_ := by
  induction m with
  | zero => rfl
  | succ m ih => rw [setAll_succ, setRow_rows]; exact ih

theorem setAll_cols (f : Nat → Nat → T) (m n : Nat) (C : Matrix T) :
    (setAll f m n C).cols_ = C.cols_ := by
  induction m with
  | zero => rfl
  | succ m ih => rw [setAll_succ, setRow_cols]; exact ih

theorem setAll_length (f : Nat → Nat → T) (m n : Nat) (C : Matrix T) :
    (setAll f m n C).data_.length = C.data_.length := by
  induction m with
  | zero => rfl
  | succ m ih => rw [setAll_succ, setRow_length]; exact ih

/-- After the double write loop of `multiply`, the cell `(i, j)` holds
`f i j` when the loops cover `(i, j)`, the column bound of the inner
loop matches the matrix column count, and the linear index is inside
the buffer. -/
theorem setAll_hit (f : Nat → Nat → T) (m n : Nat) (C : Matrix T) (i j : Nat)
    (hn : n = C.cols_) (hi : i < m) (hj : j < n)
    (hlen : i * C.cols_ + j < C.data_.length) :
    (setAll f m n C).data_[i * C.cols_ + j]? = some (f i j) := by
  induction m with
  | zero => exact absurd hi (Nat.not_lt_zero i)
  | succ m ih =>
      rw [setAll_succ]
      have hcols := setAll_cols f m n C
      rcases Nat.lt_or_ge i m with hlt | hge
      · have hmiss : ∀ j2, j2 < n → i * C.cols_ + j ≠ m * (setAll f m n C).cols_ + j2 := by
          intro j2 hj2
          rw [hcols]
          have hjc : j < C.cols_ := hn ▸ hj
          have h1 : (i + 1) * C.cols_ = i * C.cols_ + C.cols_ := by ring
          have h2 : (i + 1) * C.cols_ ≤ m * C.cols_ :=
            Nat.mul_le_mul_right _ (Nat.succ_le_of_lt hlt)
          omega
        rw [setRow_miss f m n (setAll f m n C) _ hmiss]
        exact ih hlt
      · have hi' : i = m := Nat.le_antisymm (Nat.lt_succ_iff.mp hi) hge
        have hlen3 : m * (setAll f m n C).cols_ + j < (setAll f m n C).data_.length := by
          rw [hcols, setAll_length, ← hi']
          exact hlen
        have happ := setRow_hit f m n (setAll f m n C) j hj hlen3
        rw [hcols] at happ
        rw [hi']
        exact happ

/-! ## Facts about the initializer-list constructor -/

namespace Matrix

variable {T : Type}

theorem writeRow_length (xs : List T) : ∀ (data : List T) (i : Nat),
    (writeRow data i xs).length = data.length := by
  induction xs with
  | nil => intro data i; rfl
  | cons v vs ih =>
      intro data i
      simp only [writeRow]
      rw [ih, List.length_set]

theorem writeRow_append (xs : List T) : ∀ (ys data : List T) (i : Nat),
    writeRow data i (xs ++ ys) = writeRow (writeRow data i xs) (i + xs.length) ys := by
  induction xs with
  | nil => intro ys data i; simp [writeRow]
  | cons v vs ih =>
      intro ys data i
      simp only [List.cons_append, writeRow, List.length_cons, List.append_eq]
      rw [ih]
      have harith : i + 1 + vs.length = i + (vs.length + 1) := by omega
      rw [harith]

theorem writeRow_eq (xs : List T) : ∀ (data : List T) (i : Nat),
    i + xs.length ≤ data.length →
    writeRow data i xs = data.take i ++ xs ++ data.drop (i + xs.length) := by
  induction xs with
  | nil =>
      intro data i h
      simp [writeRow]
  | cons v vs ih =>
      intro data i h
      have hi : i < data.length := by
        simp only [List.length_cons] at h
        omega
      have hlen2 : i + 1 + vs.length ≤ (data.set i v).length := by
        rw [List.length_set]
        simp only [List.length_cons] at h
        omega
      simp only [writeRow]
      rw [ih (data.set i v) (i + 1) hlen2]
      rw [List.set_eq_take_cons_drop v hi]
      have ht : data.take i ++ v :: data.drop (i + 1) =
          (data.take i ++ [v]) ++ data.drop (i + 1) := by
        simp
      rw [ht]
      have hlt : (data.take i ++ [v]).length = i + 1 := by
        simp [List.length_take, Nat.min_eq_left (Nat.le_of_lt hi)]
      rw [List.take_left' hlt]
      have hdrop : ((data.take i ++ [v]) ++ data.drop (i + 1)).drop (i + 1 + vs.length) =
          data.drop (i + (vs.length + 1)) := by
        rw [← List.drop_drop, List.drop_left' hlt, List.drop_drop]
        have : i + 1 + vs.length = i + (vs.length + 1) := by omega
        rw [this]
      rw [hdrop]
      simp [List.length_cons]

theorem writeRow_full (data xs : List T) (h : xs.length = data.length) :
    writeRow data 0 xs = xs := by
  rw [writeRow_eq xs data 0 (by omega)]
  simp [h]

theorem fillRows_ok_of_consistent (cols : Nat) (l : List (List T)) :
    ∀ (data : List T) (i : Nat), (∀ row ∈ l, row.length = cols) →
    fillRows cols data i l = Except.ok (writeRow data i l.flatten) := by
  induction l with
  | nil => intro data i _; simp [fillRows, writeRow]
  | cons row rest ih =>
      intro data i hall
      have hrow : row.length = cols := hall row (List.mem_cons_self ..)
      simp only [fillRows]
      rw [if_neg (by simp [hrow])]
      rw [ih _ _ (fun r hr => hall r (List.mem_cons_of_mem _ hr))]
      rw [List.flatten_cons, writeRow_append]

theorem fillRows_ok_consistent (cols : Nat) (l : List (List T)) :
    ∀ (data : List T) (i : Nat) (d : List T),
    fillRows cols data i l = Except.ok d → ∀ row ∈ l, row.length = cols := by
  induction l with
  | nil => intro data i d _ row hr; cases hr
  | cons row rest ih =>
      intro data i d h r hr
      by_cases hrow : row.length = cols
      · rcases List.mem_cons.mp hr with rfl | hr2
        · exact hrow
        · have h2 : fillRows cols (writeRow data i row) (i + row.length) rest =
              Except.ok d := by
            simpa [fillRows, hrow] using h
          exact ih _ _ _ h2 r hr2
      · exfalso
        simp [fillRows, hrow] at h

theorem fillRows_error_of_mismatch (cols : Nat) (l : List (List T)) :
    ∀ (data : List T) (i : Nat), (∃ row ∈ l, row.length ≠ cols) →
    fillRows cols data i l = Except.error MatrixError.InconsistentShape := by
  induction l with
  | nil => intro data i h; rcases h with ⟨row, hr, _⟩; cases hr
  | cons row rest ih =>
      intro data i h
      by_cases hrow : row.length = cols
      · simp only [fillRows]
        rw [if_neg (by simp [hrow])]
        apply ih
        rcases h with ⟨r, hr, hne⟩
        rcases List.mem_cons.mp hr with rfl | hr2
        · exact absurd hrow hne
        · exact ⟨r, hr2, hne⟩
      · simp [fillRows, hrow]

theorem fillRows_ok_length (cols : Nat) (l : List (List T)) :
    ∀ (data d : List T) (i : Nat), fillRows cols data i l = Except.ok d →
    d.length = data.length := by
  induction l with
  | nil => intro data d i h; cases h; rfl
  | cons row rest ih =>
      intro data d i h
      by_cases hrow : row.length = cols
      · have h2 : fillRows cols (writeRow data i row) (i + row.length) rest =
            Except.ok d := by
          simpa [fillRows, hrow] using h
        rw [ih _ _ _ h2, writeRow_length]
      · simp [fillRows, hrow] at h

theorem flatten_length_of_consistent (cols : Nat) (l : List (List T))
    (hall : ∀ row ∈ l, row.length = cols) :
    l.flatten.length = l.length * cols := by
  induction l with
  | nil => simp
  | cons row rest ih =>
      simp only [List.flatten_cons, List.length_append, List.length_cons]
      rw [hall row (List.mem_cons_self ..),
        ih (fun r hr => hall r (List.mem_cons_of_mem _ hr))]
      ring

theorem flatten_getElem? (cols : Nat) (l : List (List T)) :
    ∀ (r c : Nat), (∀ row ∈ l, row.length = cols) → r < l.length → c < cols →
    l.flatten[r * cols + c]? = (l.getD r [])[c]? := by
  induction l with
  | nil => intro r c _ hr _; cases hr
  | cons row rest ih =>
      intro r c hall hr hc
      cases r with
      | zero =>
          simp only [List.flatten_cons, Nat.zero_mul, Nat.zero_add]
          rw [List.getElem?_append_left]
          · simp [List.getD]
          · rw [hall row (List.mem_cons_self ..)]
            exact hc
      | succ r =>
          simp only [List.flatten_cons]
          have hrl : row.length = cols := hall row (List.mem_cons_self ..)
          have hidx : (r + 1) * cols + c = row.length + (r * cols + c) := by
            rw [hrl]; ring
          rw [hidx, List.getElem?_append_right (Nat.le_add_right ..),
            Nat.add_sub_cancel_left]
          rw [ih r c (fun rr hrr => hall rr (List.mem_cons_of_mem _ hrr))
            (Nat.lt_of_succ_lt_succ hr) hc]
          simp [List.getD]

theorem ofLists_ok_of_consistent [Zero T] (values : List (List T))
    (hall : ∀ row ∈ values, row.length = (values.headD []).length) :
    ofLists values = Except.ok
      ⟨values.length, (values.headD []).length, values.flatten⟩ := by
  simp only [ofLists]
  rw [fillRows_ok_of_consistent _ _ _ _ hall]
  have hfl : values.flatten.length = values.length * (values.headD []).length :=
    flatten_length_of_consistent _ _ hall
  rw [writeRow_full _ _ (by rw [hfl, List.length_replicate])]

theorem ofLists_error_of_mismatch [Zero T] (values : List (List T))
    (h : ∃ row ∈ values, row.length ≠ (values.headD []).length) :
    ofLists values = Except.error MatrixError.InconsistentShape := by
  simp only [ofLists]
  rw [fillRows_error_of_mismatch _ _ _ _ h]

theorem ofLists_ok_shape [Zero T] (values : List (List T)) (M : Matrix T)
    (h : ofLists values = Except.ok M) :
    M.rows_ = values.length ∧ M.cols_ = (values.headD []).length ∧
    M.data_.length = values.length * (values.headD []).length := by
  simp only [ofLists] at h
  cases hfr : fillRows (values.headD []).length
      (List.replicate (values.length * (values.headD []).length) 0) 0 values with
  | error e => rw [hfr] at h; cases h
  | ok d =>
      rw [hfr] at h
      cases h
      refine ⟨rfl, rfl, ?_⟩
      rw [fillRows_ok_length _ _ _ _ _ hfr, List.length_replicate]

end Matrix

/-! ## Facts about multiply -/

variable {T : Type}

/-- The left fold of the accumulation loop equals the finite sum. -/
theorem foldl_add_sum (g : Nat → ℚ) (n : Nat) : ∀ (s : ℚ),
    (List.range n).foldl (fun a k => a + g k) s = s + ∑ k in Finset.range n, g k := by
  induction n with
  | zero => intro s; simp
  | succ n ih =>
      intro s
      rw [List.range_succ, List.foldl_append, ih, Finset.sum_range_succ]
      simp only [List.foldl_cons, List.foldl_nil]
      ring

/-- The inner accumulation loop computes the exact sum (in the
accumulator type) of the converted products. -/
theorem dot_eq_sum [Zero T] [Add T] [Mul T] (toD : T → ℚ) (A B : Matrix T) (i j : Nat) :
    dot toD A B i j = ∑ k in Finset.range A.cols, toD (A.el i k * B.el k j) := by
  rw [dot, foldl_add_sum]
  simp

/-- On compatible dimensions, `multiply` succeeds with the value built
by the write loops. -/
theorem multiply_ok_val [Zero T] [Add T] [Mul T] (toD : T → ℚ) (ofD : ℚ → T)
    (A B : Matrix T) (hAB : A.cols = B.rows) :
    multiply toD ofD A B =
      Except.ok (setAll (fun i j => ofD (dot toD A B i j)) A.rows B.cols
        (Matrix.construct A.rows B.cols)) := by
  rw [multiply, if_neg (not_not_intro hAB)]

/-- Shape and element formula of a successful `multiply`: the result has
the rows of `A` and the columns of `B`, and each covered cell holds the
narrowed accumulator value of its inner loop. -/
theorem multiply_el [Zero T] [Add T] [Mul T] (toD : T → ℚ) (ofD : ℚ → T)
    (A B C : Matrix T) (h : multiply toD ofD A B = Except.ok C) :
    C.rows = A.rows ∧ C.cols = B.cols ∧
    ∀ i j, i < A.rows → j < B.cols → C.el i j = ofD (dot toD A B i j) := by
  rw [multiply] at h
  by_cases hAB : A.cols = B.rows
  · rw [if_neg (not_not_intro hAB)] at h
    have hC := Except.ok.inj h
    subst hC
    refine ⟨?_, ?_, ?_⟩
    · show (setAll _ _ _ _).rows_ = A.rows
      rw [setAll_rows]
      rfl
    · show (setAll _ _ _ _).cols_ = B.cols
      rw [setAll_cols]
      rfl
    · intro i j hi hj
      have hn : B.cols = (Matrix.construct (T := T) A.rows B.cols).cols_ := rfl
      have hlen : i * (Matrix.construct (T := T) A.rows B.cols).cols_ + j <
          (Matrix.construct (T := T) A.rows B.cols).data_.length := by
        show i * B.cols + j < (List.replicate (A.rows * B.cols) (0 : T)).length
        rw [List.length_replicate]
        exact Matrix.index_lt hi hj
      have hhit := setAll_hit (fun i j => ofD (dot toD A B i j)) A.rows B.cols
        (Matrix.construct A.rows B.cols) i j hn hi hj hlen
      rw [Matrix.el, Matrix.get]
      have hc2 : (setAll (fun i j => ofD (dot toD A B i j)) A.rows B.cols
          (Matrix.construct A.rows B.cols)).cols_ =
          (Matrix.construct (T := T) A.rows B.cols).cols_ := setAll_cols _ _ _ _
      rw [hc2, hhit]
      rfl
  · rw [if_pos hAB] at h
    exact Except.noConfusion h

/-- A successful `multiply` satisfies the buffer-length invariant. -/
theorem multiply_ok_WF [Zero T] [Add T] [Mul T] (toD : T → ℚ) (ofD : ℚ → T)
    (A B C : Matrix T) (h : multiply toD ofD A B = Except.ok C) : C.WF := by
  rw [multiply] at h
  by_cases hAB : A.cols = B.rows
  · rw [if_neg (not_not_intro hAB)] at h
    have hC := Except.ok.inj h
    subst hC
    simp only [Matrix.WF, Matrix.rows, Matrix.cols, setAll_rows, setAll_cols,
      setAll_length, Matrix.construct, List.length_replicate]
  · rw [if_pos hAB] at h
    exact Except.noConfusion h

/-- Embedding of `multiply` with the by-reference parameters threaded
through the loops as explicit state: the C++ signature is
`multiply(Matrix<T> &A, Matrix<T> &B)`, so the loop bodies could in
principle write `A` and `B`; the state triple `(A, B, C)` records every
write the source performs, namely only the assignments `C(i, j) = sum`,
whose reads `A(i, k)` and `B(k, j)` come from the threaded state. -/
def multiplyRef [Zero T] [Add T] [Mul T] (toD : T → ℚ) (ofD : ℚ → T) (A B : Matrix T) :
    Except MatrixError (Matrix T × Matrix T × Matrix T) :=
  if A.cols ≠ B.rows then
    Except.error MatrixError.DimensionMismatch
  else
    Except.ok ((List.range A.rows).foldl (fun s i =>
      (List.range B.cols).foldl (fun s j =>
        (s.1, s.2.1, s.2.2.set i j (ofD (dot toD s.1 s.2.1 i j)))) s)
      (A, B, Matrix.construct A.rows B.cols))

theorem multiplyRef_inner [Zero T] [Add T] [Mul T] (toD : T → ℚ) (ofD : ℚ → T)
    (i : Nat) (l : List Nat) (A B : Matrix T) : ∀ (C : Matrix T),
    l.foldl (fun s j => (s.1, s.2.1, s.2.2.set i j (ofD (dot toD s.1 s.2.1 i j)))) (A, B, C) =
      (A, B, l.foldl (fun C j => C.set i j (ofD (dot toD A B i j))) C) := by
  induction l with
  | nil => intro C; rfl
  | cons x xs ih =>
      intro C
      simp only [List.foldl_cons]
      exact ih _

theorem multiplyRef_outer [Zero T] [Add T] [Mul T] (toD : T → ℚ) (ofD : ℚ → T)
    (n : Nat) (l : List Nat) (A B : Matrix T) : ∀ (C : Matrix T),
    l.foldl (fun s i => (List.range n).foldl (fun s j =>
        (s.1, s.2.1, s.2.2.set i j (ofD (dot toD s.1 s.2.1 i j)))) s) (A, B, C) =
      (A, B, l.foldl (fun C i => setRow (fun i j => ofD (dot toD A B i j)) i n C) C) := by
  induction l with
  | nil => intro C; rfl
  | cons x xs ih =>
      intro C
      simp only [List.foldl_cons]
      rw [multiplyRef_inner]
      exact ih _

/-- The threaded form of `multiply` returns its reference parameters
unchanged alongside the product matrix of `multiply`. -/
theorem multiplyRef_frame [Zero T] [Add T] [Mul T] (toD : T → ℚ) (ofD : ℚ → T)
    (A B A2 B2 C : Matrix T)
    (h : multiplyRef toD ofD A B = Except.ok (A2, B2, C)) :
    A2 = A ∧ B2 = B ∧ multiply toD ofD A B = Except.ok C := by
  rw [multiplyRef] at h
  by_cases hAB : A.cols = B.rows
  · rw [if_neg (not_not_intro hAB)] at h
    rw [multiplyRef_outer] at h
    have h2 := Except.ok.inj h
    have hA : A = A2 := congrArg Prod.fst h2
    have hB : B = B2 := congrArg (fun s => s.2.1) h2
    have hCv := congrArg (fun s => s.2.2) h2
    refine ⟨hA.symm, hB.symm, ?_⟩
    rw [multiply, if_neg (not_not_intro hAB)]
    exact congrArg Except.ok hCv
  · rw [if_pos hAB] at h
    exact Except.noConfusion h

/-! ## Concrete sanity checks of the embedding -/

/-- The concrete scenario of the spec: `[[1,2],[3,4]] * [[5,6],[7,8]] =
[[19,22],[43,50]]`, evaluated on the embedded `multiply`. -/
theorem multiplyQ_concrete_scenario :
    multiplyQ ⟨2, 2, [1, 2, 3, 4]⟩ ⟨2, 2, [5, 6, 7, 8]⟩ =
      Except.ok ⟨2, 2, [19, 22, 43, 50]⟩ := by
  rw [multiplyQ, multiply_ok_val id id ⟨2, 2, [1, 2, 3, 4]⟩ ⟨2, 2, [5, 6, 7, 8]⟩ rfl]
  show Except.ok (⟨2, 2, [(0 : ℚ) + 1 * 5 + 2 * 7, (0 : ℚ) + 1 * 6 + 2 * 8,
    (0 : ℚ) + 3 * 5 + 4 * 7, (0 : ℚ) + 3 * 6 + 4 * 8]⟩ : Matrix ℚ) =
    Except.ok ⟨2, 2, [19, 22, 43, 50]⟩
  norm_num

/-! ## The claims -/

/-- C1: for matrices `A`, `B` with `A.colCount() == B.rowCount()`,
`multiply(A, B)` returns a matrix `C` with `rows = A.rowCount()`,
`cols = B.colCount()`, and for all in-bounds `(i, j)`, `C(i,j)` is the
sum over `k < A.colCount()` of `A(i,k) * B(k,j)`. -/
theorem multiply_product_correct (A B : Matrix ℚ) (_hWFA : A.WF) (_hWFB : B.WF)
    (hAB : A.cols = B.rows) :
    ∃ C, multiplyQ A B = Except.ok C ∧ C.rows = A.rows ∧ C.cols = B.cols ∧
      ∀ i j, i < A.rows → j < B.cols →
        C.el i j = ∑ k in Finset.range A.cols, A.el i k * B.el k j := by
  refine ⟨_, multiply_ok_val id id A B hAB, ?_⟩
  have h := multiply_el id id A B _ (multiply_ok_val id id A B hAB)
  refine ⟨h.1, h.2.1, ?_⟩
  intro i j hi hj
  rw [h.2.2 i j hi hj, dot_eq_sum]
  simp

/-- Witness for C1 at the spec scenario matrices. -/
theorem multiply_product_correct_witness :
    Matrix.WF (⟨2, 2, [1, 2, 3, 4]⟩ : Matrix ℚ) ∧
    Matrix.WF (⟨2, 2, [5, 6, 7, 8]⟩ : Matrix ℚ) ∧
    Matrix.cols (⟨2, 2, [1, 2, 3, 4]⟩ : Matrix ℚ) =
      Matrix.rows (⟨2, 2, [5, 6, 7, 8]⟩ : Matrix ℚ) ∧
    (∃ C, multiplyQ ⟨2, 2, [1, 2, 3, 4]⟩ ⟨2, 2, [5, 6, 7, 8]⟩ = Except.ok C ∧
      C.rows = 2 ∧ C.cols = 2 ∧
      ∀ i j, i < 2 → j < 2 →
        C.el i j = ∑ k in Finset.range 2,
          Matrix.el (⟨2, 2, [1, 2, 3, 4]⟩ : Matrix ℚ) i k *
          Matrix.el (⟨2, 2, [5, 6, 7, 8]⟩ : Matrix ℚ) k j) :=
  ⟨by decide, by decide, by decide,
    multiply_product_correct ⟨2, 2, [1, 2, 3, 4]⟩ ⟨2, 2, [5, 6, 7, 8]⟩
      (by decide) (by decide) (by decide)⟩

/-- C2: `multiply(A, B)` fails with `DimensionMismatch` if and only if
`A.colCount() != B.rowCount()`; it succeeds (producing a matrix) if and
only if the dimensions agree, so on failure no result is produced. -/
theorem multiply_dimension_check (A B : Matrix ℚ) :
    (multiplyQ A B = Except.error MatrixError.DimensionMismatch ↔ A.cols ≠ B.rows) ∧
    ((∃ C, multiplyQ A B = Except.ok C) ↔ A.cols = B.rows) := by
  by_cases hAB : A.cols = B.rows
  · rw [multiplyQ, multiply_ok_val id id A B hAB]
    refine ⟨⟨fun h => Except.noConfusion h, fun h => absurd hAB h⟩, ?_⟩
    exact ⟨fun _ => hAB, fun _ => ⟨_, rfl⟩⟩
  · rw [multiplyQ, multiply, if_pos hAB]
    refine ⟨⟨fun _ => hAB, fun _ => rfl⟩, ?_⟩
    refine ⟨?_, fun h => absurd h hAB⟩
    rintro ⟨C, hC⟩
    exact Except.noConfusion hC

/-- C3 counterexample: the accessors do not bounds-check.  On the 2×2
matrix `[[1,2],[3,4]]`, the out-of-bounds read `get(0, 2)` does not
fail with `IndexOutOfRange`: it performs the unchecked linear-buffer
access at index `0*2 + 2 = 2` and returns element `(1,0)`; likewise
`set(0, 2, 9)` writes that buffer cell. -/
theorem accessors_out_of_bounds_access_buffer :
    Matrix.get (⟨2, 2, [1, 2, 3, 4]⟩ : Matrix ℚ) 0 2 = some 3 ∧
    Matrix.set (⟨2, 2, [1, 2, 3, 4]⟩ : Matrix ℚ) 0 2 9 = ⟨2, 2, [1, 2, 9, 4]⟩ := by
  decide

/-- C3 amended: `get(r, c)` and `set(r, c, v)` perform the unchecked
access at linear index `r * cols + c`; no `IndexOutOfRange` failure
exists.  `get` yields a value exactly when the linear index is inside
the buffer (even when `c ≥ colCount()`), and `set` writes that index. -/
theorem accessors_unchecked (M : Matrix ℚ) (r c : Nat) (v : ℚ) :
    ((M.get r c).isSome ↔ r * M.cols + c < M.data_.length) ∧
    (M.set r c v).data_ = M.data_.set (r * M.cols + c) v := by
  refine ⟨?_, rfl⟩
  rw [Matrix.get, Matrix.cols]
  rcases Nat.lt_or_ge (r * M.cols_ + c) M.data_.length with h | h
  · simp [List.getElem?_eq_getElem h, h]
  · simp [List.getElem?_eq_none h]
    omega

/-- C4 counterexample: `construct(0, 3)` does not fail with
`InvalidDimension`; the dimension constructor has no check and yields
the degenerate 0×3 matrix with an empty buffer. -/
theorem construct_zero_rows_succeeds :
    Matrix.construct (T := ℚ) 0 3 = ⟨0, 3, []⟩ := by decide

/-- C4 amended: `construct(rows, cols)` never fails: for every `rows`
and `cols`, including zero, it returns a matrix of the requested shape
whose buffer has length `rows * cols`; in particular `construct(0, 3)`
succeeds with an empty buffer. -/
theorem construct_never_fails (rows cols : Nat) :
    (Matrix.construct (T := ℚ) rows cols).rows = rows ∧
    (Matrix.construct (T := ℚ) rows cols).cols = cols ∧
    (Matrix.construct (T := ℚ) rows cols).data_.length = rows * cols ∧
    (Matrix.construct (T := ℚ) 0 3).data_ = [] := by
  refine ⟨rfl, rfl, ?_, rfl⟩
  rw [Matrix.construct, List.length_replicate]

/-- C5: for every element type `T`, the accumulation for a result cell
is performed in the accumulator type (the `double` of the source,
modelled exactly by `ℚ`): each product is converted by `toD`, the sum is
exact in the wide type, and the narrowing `ofD` to `T` is applied once,
on the final assignment, to the whole sum. -/
theorem multiply_accumulator_widening {T : Type} [Zero T] [Add T] [Mul T]
    (toD : T → ℚ) (ofD : ℚ → T) (A B C : Matrix T)
    (h : multiply toD ofD A B = Except.ok C) (i j : Nat)
    (hi : i < A.rows) (hj : j < B.cols) :
    C.el i j = ofD (∑ k in Finset.range A.cols, toD (A.el i k * B.el k j)) := by
  have hm := multiply_el toD ofD A B C h
  rw [hm.2.2 i j hi hj, dot_eq_sum]

/-- Witness for C5 at `T = ℤ` with the `int → double` conversion and the
`double → int` narrowing. -/
theorem multiply_accumulator_widening_witness :
    multiply (T := ℤ) Int.cast (fun q : ℚ => ⌊q⌋) ⟨1, 1, [2]⟩ ⟨1, 1, [3]⟩ =
      Except.ok ⟨1, 1, [6]⟩ ∧
    (0 : Nat) < 1 ∧
    Matrix.el (⟨1, 1, [6]⟩ : Matrix ℤ) 0 0 =
      ⌊∑ k in Finset.range (Matrix.cols (⟨1, 1, [2]⟩ : Matrix ℤ)),
        ((Matrix.el (⟨1, 1, [2]⟩ : Matrix ℤ) 0 k *
          Matrix.el (⟨1, 1, [3]⟩ : Matrix ℤ) k 0 : ℤ) : ℚ)⌋ := by
  have hmul : multiply (T := ℤ) Int.cast (fun q : ℚ => ⌊q⌋) ⟨1, 1, [2]⟩ ⟨1, 1, [3]⟩ =
      Except.ok ⟨1, 1, [6]⟩ := by
    rw [multiply_ok_val Int.cast (fun q : ℚ => ⌊q⌋) ⟨1, 1, [2]⟩ ⟨1, 1, [3]⟩ rfl]
    show Except.ok (⟨1, 1, [⌊(0 : ℚ) + (((2 * 3 : ℤ) : ℚ))⌋]⟩ : Matrix ℤ) =
      Except.ok ⟨1, 1, [6]⟩
    norm_num
  exact ⟨hmul, by decide,
    multiply_accumulator_widening Int.cast (fun q : ℚ => ⌊q⌋) ⟨1, 1, [2]⟩ ⟨1, 1, [3]⟩
      ⟨1, 1, [6]⟩ hmul 0 0 (by decide) (by decide)⟩

/-- C6: for a non-empty nested literal, construction fails with
`InconsistentShape` when some row length differs from the first row
length (and then no matrix is produced); with consistent rows it
succeeds with `rowCount` the number of rows, `colCount` the first row
length, and the elements of the input in row-major order. -/
theorem ofLists_shape_check (values : List (List ℚ)) (_hne : values ≠ []) :
    ((∃ row ∈ values, row.length ≠ (values.headD []).length) →
      Matrix.ofLists values = Except.error MatrixError.InconsistentShape) ∧
    ((∀ row ∈ values, row.length = (values.headD []).length) →
      ∃ M, Matrix.ofLists values = Except.ok M ∧
        M.rows = values.length ∧ M.cols = (values.headD []).length ∧
        ∀ r c, r < M.rows → c < M.cols →
          M.el r c = (values.getD r []).getD c 0) := by
  constructor
  · exact fun h => Matrix.ofLists_error_of_mismatch values h
  · intro hall
    refine ⟨_, Matrix.ofLists_ok_of_consistent values hall, rfl, rfl, ?_⟩
    intro r c hr hc
    rw [Matrix.el, Matrix.get]
    show (values.flatten[r * (values.headD []).length + c]?).getD 0 = _
    rw [Matrix.flatten_getElem? _ _ r c hall hr hc]
    simp [List.getD_eq_getElem?_getD]

/-- Witness for C6: the consistent literal `[[1,2],[3,4]]` and the
inconsistent literal `[[1,2],[3]]`. -/
theorem ofLists_shape_check_witness :
    Matrix.ofLists ([[1, 2], [3]] : List (List ℚ)) =
      Except.error MatrixError.InconsistentShape ∧
    (∃ M, Matrix.ofLists ([[1, 2], [3, 4]] : List (List ℚ)) = Except.ok M ∧
      M.rows = 2 ∧ M.cols = 2 ∧
      ∀ r c, r < M.rows → c < M.cols →
        M.el r c = (([[1, 2], [3, 4]] : List (List ℚ)).getD r []).getD c 0) :=
  ⟨(ofLists_shape_check [[1, 2], [3]] (by decide)).1 (by decide),
   (ofLists_shape_check [[1, 2], [3, 4]] (by decide)).2 (by decide)⟩

/-- C7: `construct(rows, cols)` yields a matrix with `rowCount == rows`,
`colCount == cols`, and every in-bounds element reads as zero. -/
theorem construct_zero_initialized (rows cols r c : Nat)
    (hr : r < rows) (hc : c < cols) :
    (Matrix.construct (T := ℚ) rows cols).rows = rows ∧
    (Matrix.construct (T := ℚ) rows cols).cols = cols ∧
    (Matrix.construct (T := ℚ) rows cols).get r c = some 0 := by
  refine ⟨rfl, rfl, ?_⟩
  rw [Matrix.get]
  show (List.replicate (rows * cols) (0 : ℚ))[r * cols + c]? = some 0
  exact List.getElem?_replicate_of_lt (Matrix.index_lt hr hc)

/-- Witness for C7 at shape 2×3, cell (1, 2). -/
theorem construct_zero_initialized_witness :
    (1 : Nat) < 2 ∧ (2 : Nat) < 3 ∧
    ((Matrix.construct (T := ℚ) 2 3).rows = 2 ∧
     (Matrix.construct (T := ℚ) 2 3).cols = 3 ∧
     (Matrix.construct (T := ℚ) 2 3).get 1 2 = some 0) :=
  ⟨by decide, by decide, construct_zero_initialized 2 3 1 2 (by decide) (by decide)⟩

/-- C8: `multiply` does not mutate its by-reference operands: threading
`A` and `B` through the loops as state, a successful call returns them
with dimensions and buffer identical to the inputs, alongside the
product matrix of `multiply`. -/
theorem multiply_no_mutation {T : Type} [Zero T] [Add T] [Mul T]
    (toD : T → ℚ) (ofD : ℚ → T) (A B A2 B2 C : Matrix T)
    (h : multiplyRef toD ofD A B = Except.ok (A2, B2, C)) :
    (A2.rows = A.rows ∧ A2.cols = A.cols ∧ A2.data_ = A.data_) ∧
    (B2.rows = B.rows ∧ B2.cols = B.cols ∧ B2.data_ = B.data_) ∧
    multiply toD ofD A B = Except.ok C := by
  obtain ⟨hA, hB, hC⟩ := multiplyRef_frame toD ofD A B A2 B2 C h
  subst hA
  subst hB
  exact ⟨⟨rfl, rfl, rfl⟩, ⟨rfl, rfl, rfl⟩, hC⟩

/-- Witness for C8 on 1×1 matrices. -/
theorem multiply_no_mutation_witness :
    multiplyRef (T := ℚ) id id ⟨1, 1, [2]⟩ ⟨1, 1, [3]⟩ =
      Except.ok (⟨1, 1, [2]⟩, ⟨1, 1, [3]⟩, ⟨1, 1, [6]⟩) ∧
    (Matrix.data_ (⟨1, 1, [2]⟩ : Matrix ℚ) = [2] ∧
     multiply (T := ℚ) id id ⟨1, 1, [2]⟩ ⟨1, 1, [3]⟩ = Except.ok ⟨1, 1, [6]⟩) := by
  have href : multiplyRef (T := ℚ) id id ⟨1, 1, [2]⟩ ⟨1, 1, [3]⟩ =
      Except.ok (⟨1, 1, [2]⟩, ⟨1, 1, [3]⟩, ⟨1, 1, [6]⟩) := by
    rw [multiplyRef,
      if_neg (show ¬(Matrix.cols (⟨1, 1, [2]⟩ : Matrix ℚ) ≠
        Matrix.rows (⟨1, 1, [3]⟩ : Matrix ℚ)) from not_not_intro rfl)]
    show Except.ok ((⟨1, 1, [2]⟩ : Matrix ℚ), (⟨1, 1, [3]⟩ : Matrix ℚ),
      (⟨1, 1, [(0 : ℚ) + 2 * 3]⟩ : Matrix ℚ)) = _
    norm_num
  exact ⟨href,
    ⟨(multiply_no_mutation id id ⟨1, 1, [2]⟩ ⟨1, 1, [3]⟩ ⟨1, 1, [2]⟩ ⟨1, 1, [3]⟩
        ⟨1, 1, [6]⟩ href).1.2.2,
     (multiply_no_mutation id id ⟨1, 1, [2]⟩ ⟨1, 1, [3]⟩ ⟨1, 1, [2]⟩ ⟨1, 1, [3]⟩
        ⟨1, 1, [6]⟩ href).2.2⟩⟩

/-- C9: every successful construction establishes, and every operation
preserves, the invariant `data_.length = rows * cols`; `set` never
changes `rows` or `cols` (and `get`, `rowCount`, `colCount` are pure
accessors that return values without modifying the matrix). -/
theorem invariant_preservation :
    (∀ rows cols : Nat, (Matrix.construct (T := ℚ) rows cols).WF) ∧
    (∀ (values : List (List ℚ)) (M : Matrix ℚ),
      Matrix.ofLists values = Except.ok M → M.WF) ∧
    (∀ (M : Matrix ℚ) (r c : Nat) (v : ℚ), M.WF →
      (M.set r c v).WF ∧ (M.set r c v).rows = M.rows ∧ (M.set r c v).cols = M.cols) ∧
    (∀ (A B C : Matrix ℚ), multiplyQ A B = Except.ok C → C.WF) := by
  refine ⟨?_, ?_, ?_, ?_⟩
  · intro rows cols
    simp [Matrix.WF, Matrix.construct, Matrix.rows, Matrix.cols]
  · intro values M h
    obtain ⟨h1, h2, h3⟩ := Matrix.ofLists_ok_shape values M h
    simp [Matrix.WF, Matrix.rows, Matrix.cols, h1, h2, h3]
  · intro M r c v hWF
    refine ⟨?_, rfl, rfl⟩
    simpa [Matrix.WF, Matrix.set, Matrix.rows, Matrix.cols] using hWF
  · intro A B C h
    exact multiply_ok_WF id id A B C h

/-- Witness for C9 on concrete matrices. -/
theorem invariant_preservation_witness :
    (Matrix.construct (T := ℚ) 2 3).WF ∧
    Matrix.WF (⟨1, 1, [5]⟩ : Matrix ℚ) ∧
    ((⟨1, 1, [5]⟩ : Matrix ℚ).set 0 0 7).WF :=
  ⟨invariant_preservation.1 2 3, by decide,
    (invariant_preservation.2.2.1 ⟨1, 1, [5]⟩ 0 0 7 (by decide)).1⟩

/-- C10: after `set(r, c, v)` at an in-bounds position of a well-formed
matrix, `get(r, c)` returns `v`, and every other in-bounds position
reads the same value as before. -/
theorem set_get_frame (M : Matrix ℚ) (hWF : M.WF) (r c : Nat) (v : ℚ)
    (hr : r < M.rows) (hc : c < M.cols) :
    (M.set r c v).get r c = some v ∧
    ∀ r2 c2, r2 < M.rows → c2 < M.cols → (r2, c2) ≠ (r, c) →
      (M.set r c v).get r2 c2 = M.get r2 c2 := by
  have hidx : r * M.cols_ + c < M.data_.length := by
    rw [hWF]
    exact Matrix.index_lt hr hc
  constructor
  · rw [Matrix.get]
    simp only [Matrix.set]
    exact List.getElem?_set_self hidx
  · intro r2 c2 hr2 hc2 hne
    rw [Matrix.get, Matrix.get]
    simp only [Matrix.set]
    apply List.getElem?_set_ne
    intro heq
    have hrc := Matrix.index_inj hc hc2 heq
    exact hne (by rw [← hrc.1, ← hrc.2])

/-- Witness for C10 on `[[1,2],[3,4]]`, writing at (0, 1), reading back
(0, 1) and the untouched (1, 0). -/
theorem set_get_frame_witness :
    Matrix.WF (⟨2, 2, [1, 2, 3, 4]⟩ : Matrix ℚ) ∧
    (((⟨2, 2, [1, 2, 3, 4]⟩ : Matrix ℚ).set 0 1 9).get 0 1 = some 9 ∧
     ((⟨2, 2, [1, 2, 3, 4]⟩ : Matrix ℚ).set 0 1 9).get 1 0 =
       Matrix.get (⟨2, 2, [1, 2, 3, 4]⟩ : Matrix ℚ) 1 0) :=
  ⟨by decide,
   ⟨(set_get_frame ⟨2, 2, [1, 2, 3, 4]⟩ (by decide) 0 1 9 (by decide) (by decide)).1,
    (set_get_frame ⟨2, 2, [1, 2, 3, 4]⟩ (by decide) 0 1 9 (by decide) (by decide)).2
      1 0 (by decide) (by decide) (by decide)⟩⟩

end MathH
